import Mathlib

/-!
Verification of the feed aggregation core (multi-source merge, group
consolidation, filter engine, pagination, virtualization window) against
its natural-language specification.  JavaScript strings are modelled as
lists of characters, timestamps as integers, message ids as naturals.
-/

/-- JavaScript strings, modelled as their character sequences. -/
abbrev Str := List Char

/-- Composite identity of a feed item: (sourceId, itemId).
Modelled from the spec: getSearchResultKey / parseSearchResultKey
(util/keys/searchResultKey, not under src/) form and split the composite
key (sourceId, itemId); we model the key as the pair itself. -/
abbrev Key := Str × Nat

/-- A feed item (ApiMessage as used by the feed code): chat id, message id,
date, optional album group id, optional text, optional photo/video each
carrying an optional caption text. -/
structure Msg where
  chatId : Str
  id : Nat
  date : Int
  groupedId : Option Str
  text : Option Str
  photo : Option (Option Str)
  video : Option (Option Str)
deriving DecidableEq, Inhabited

/-- The composite key of a message (spec-modelled, see `Key`). -/
def getSearchResultKey (m : Msg) : Key := (m.chatId, m.id)

/-- JS truthiness of an optional string field: present and non-empty. -/
def truthyText : Option Str → Bool
  | none => false
  | some s => decide (s ≠ [])

/-- Truthiness of `media?.caption?.text`: media present with non-empty caption. -/
def captionText : Option (Option Str) → Bool
  | none => false
  | some c => truthyText c

/-- `msg.content.text?.text || msg.content.photo?.caption?.text ||
msg.content.video?.caption?.text` — the album-member own-text test. -/
def hasOwnText (m : Msg) : Bool :=
  truthyText m.text || captionText m.photo || captionText m.video

/-- Comparator relation of `allMessages.sort((a, b) => a.date - b.date)`. -/
def dateLE (a b : Msg) : Prop := a.date ≤ b.date

instance : DecidableRel dateLE :=
  fun a b => inferInstanceAs (Decidable (a.date ≤ b.date))

instance : IsTotal Msg dateLE := ⟨fun a b => Int.le_total a.date b.date⟩

instance : IsTrans Msg dateLE := ⟨fun _ _ _ h1 h2 => le_trans h1 h2⟩

/-- Stable sort ascending by date (`.sort((a, b) => a.date - b.date)`). -/
def sortByDate (ms : List Msg) : List Msg := List.insertionSort dateLE ms

/-- One step of building the album map key list: `groupedMessages` is a JS
Map, whose keys appear in order of first insertion. -/
def groupStep (acc : List Str) (m : Msg) : List Str :=
  match m.groupedId with
  | some g => if g ∈ acc then acc else acc ++ [g]
  | none => acc

/-- The distinct `groupedId`s of the input, in order of first occurrence
(the iteration order of the `groupedMessages` Map). -/
def groupKeys (msgs : List Msg) : List Str := msgs.foldl groupStep []

/-- The standalone messages: those without a `groupedId`, in input order. -/
def standaloneOf (msgs : List Msg) : List Msg :=
  msgs.filter (fun m => decide (m.groupedId = none))

/-- The bucket of an album: the messages carrying this `groupedId`, in
input order (the Map bucket built by the grouping pass). -/
def membersOf (msgs : List Msg) (g : Str) : List Msg :=
  msgs.filter (fun m => decide (m.groupedId = some g))

/-- `Math.max(...messages.map(m => m.date))` for a non-empty bucket. -/
def albumMax : List Msg → Int
  | [] => 0
  | m :: rest => rest.foldl (fun a x => max a x.date) m.date

/-- The test on standalone messages for borrowing an album caption:
strictly later than the album's max date, truthy text, no photo, no
video, and not already consumed (`usedStandaloneIds`). -/
def isCaptionCandidate (albumMaxDate : Int) (used : List Nat) (m : Msg) : Bool :=
  decide (albumMaxDate < m.date) && truthyText m.text &&
    m.photo.isNone && m.video.isNone && decide (m.id ∉ used)

/-- Selects the representative of one album group and returns it with the
updated consumed-standalone id set: the first member with own text if
any; otherwise the first member, borrowing the text of the first
caption-candidate standalone (which is then marked consumed by its bare
numeric id). -/
def pickRep (msgs standalone : List Msg) (g : Str) (used : List Nat) :
    Msg × List Nat :=
  match (membersOf msgs g).find? hasOwnText with
  | some m => (m, used)
  | none =>
    match standalone.find? (isCaptionCandidate (albumMax (membersOf msgs g)) used) with
    | some s => ({ (membersOf msgs g).headI with text := s.text }, s.id :: used)
    | none => ((membersOf msgs g).headI, used)

/-- The `groupedMessages.forEach` loop: selects one representative per
group in Map iteration order, threading the consumed-standalone id set. -/
def pickReps (msgs standalone : List Msg) : List Str → List Nat → List Msg × List Nat
  | [], used => ([], used)
  | g :: gs, used =>
    let r := pickRep msgs standalone g used
    let rest := pickReps msgs standalone gs r.2
    (r.1 :: rest.1, rest.2)

/-- The Group Consolidator: partitions into standalone and grouped
messages, selects one representative per group (possibly borrowing and
consuming a standalone caption), drops consumed standalone messages, and
re-sorts ascending by date. -/
def consolidate (msgs : List Msg) : List Msg :=
  let standalone := standaloneOf msgs
  let r := pickReps msgs standalone (groupKeys msgs) []
  let filteredStandalone := standalone.filter (fun m => decide (m.id ∉ r.2))
  sortByDate (filteredStandalone ++ r.1)

/-- One insertion into the pagination dedup Map
(`new Map(allMessages.map(m => [getSearchResultKey(m), m]))`): an
existing key keeps its position but takes the newer value; a new key is
appended. -/
def upsertByKey (acc : List Msg) (m : Msg) : List Msg :=
  if acc.any (fun x => decide (getSearchResultKey x = getSearchResultKey m)) then
    acc.map (fun x => if getSearchResultKey x = getSearchResultKey m then m else x)
  else acc ++ [m]

/-- Deduplication by composite key, keeping one instance per key
(first-occurrence position, last-occurrence value), as the JS Map does. -/
def dedupByKey (ms : List Msg) : List Msg := ms.foldl upsertByKey []

/-- The initial-load merge: sort all fetched messages ascending by date,
then consolidate albums. -/
def initialMerge (ms : List Msg) : List Msg := consolidate (sortByDate ms)

/-- The pagination merge: concatenate new and existing messages, sort,
dedupe by composite key, sort again, then consolidate albums. -/
def paginationMerge (newMessages existingMessages : List Msg) : List Msg :=
  consolidate (sortByDate (dedupByKey (sortByDate (newMessages ++ existingMessages))))

/-- A saved filter preset: id, display name, excluded source ids. -/
structure FeedFilter where
  id : Str
  name : Str
  excludedChatIds : List Str
deriving DecidableEq, Inhabited

/-- MAX_FILTERS = 50: at most this many presets persist. -/
def MAX_FILTERS : Nat := 50

/-- MAX_FILTER_NAME_LENGTH = 100. -/
def MAX_FILTER_NAME_LENGTH : Nat := 100

/-- MAX_EXCLUDED_CHATS = 500. -/
def MAX_EXCLUDED_CHATS : Nat := 500

/-- The feed view state held in tab state: canonical timeline
(`allMessageIds`), filtered timeline (`messageIds`), excluded sources,
saved presets, active preset, loading flags, scroll bookkeeping. -/
structure Feed where
  allMessageIds : List Key
  messageIds : List Key
  excludedChatIds : List Str
  savedFilters : List FeedFilter
  activeFilterId : Option Str
  isLoading : Bool
  isLoadingMore : Bool
  hasInitialScroll : Bool
  scrollPosition : Nat
deriving DecidableEq, Inhabited

/-- Modelled from the spec: the initial feed state on feed open (empty
timelines, no exclusions, cleared flags); the tab-state initializer is
not under src/. -/
def initFeed : Feed :=
  { allMessageIds := [], messageIds := [], excludedChatIds := [],
    savedFilters := [], activeFilterId := none, isLoading := false,
    isLoadingMore := false, hasInitialScroll := false, scrollPosition := 0 }

/-- JS whitespace test used by `String.prototype.trim` (common cases). -/
def isWS (c : Char) : Bool := c = ' ' || c = '\t' || c = '\n' || c = '\r'

/-- `name.trim()`: strip whitespace from both ends. -/
def trimStr (s : Str) : Str :=
  ((s.dropWhile isWS).reverse.dropWhile isWS).reverse

/-- Validation of a persisted filter (`isValidFilter`): id length in
(0, 100), name length in (0, 100], at most 500 excluded ids, each id of
length in (0, 100).  The dynamic type checks of the source collapse in
the typed model. -/
def isValidFilter (f : FeedFilter) : Bool :=
  decide (0 < f.id.length) && decide (f.id.length < 100) &&
    decide (0 < f.name.length) && decide (f.name.length ≤ MAX_FILTER_NAME_LENGTH) &&
    decide (f.excludedChatIds.length ≤ MAX_EXCLUDED_CHATS) &&
    f.excludedChatIds.all (fun i => decide (0 < i.length) && decide (i.length < 100))

/-- `saveFiltersToStorage`: the collection actually written is capped at
MAX_FILTERS (the quota-failure retry path halves the cap further; the
cap-50 bound covers both). -/
def saveFiltersToStorage (filters : List FeedFilter) : List FeedFilter :=
  filters.take MAX_FILTERS

/-- `loadFiltersFromStorage`: `none` models absent or corrupted storage;
otherwise invalid entries are dropped and the result is capped. -/
def loadFiltersFromStorage (stored : Option (List FeedFilter)) : List FeedFilter :=
  match stored with
  | none => []
  | some parsed => (parsed.filter isValidFilter).take MAX_FILTERS

/-- `toggleFeedChannelExclusion`: add or remove one chat id from the
excluded set.  It changes nothing else (in particular it recomputes
neither `messageIds` nor `allMessageIds`). -/
def toggleFeedChannelExclusion (feed : Feed) (chatId : Str) : Feed :=
  { feed with
    excludedChatIds :=
      if chatId ∈ feed.excludedChatIds then
        feed.excludedChatIds.filter (fun i => decide (i ≠ chatId))
      else feed.excludedChatIds ++ [chatId] }

/-- `saveFeedFilter`: reject an empty (after trim) name, truncate the
name to 100, reject when 50 presets exist, cap the copied excluded set
at 500, and append the new preset. `now` stands for Date.now(), used
only to mint the id. -/
def saveFeedFilter (feed : Feed) (name : Str) (now : Nat) : Feed :=
  let trimmedName := trimStr name
  if trimmedName.length = 0 then feed
  else
    let sanitizedName := trimmedName.take MAX_FILTER_NAME_LENGTH
    if MAX_FILTERS ≤ feed.savedFilters.length then feed
    else
      let newFilter : FeedFilter :=
        { id := "filter_".data ++ (Nat.toDigits 10 now),
          name := sanitizedName,
          excludedChatIds := feed.excludedChatIds.take MAX_EXCLUDED_CHATS }
      { feed with savedFilters := feed.savedFilters ++ [newFilter] }

/-- `deleteFeedFilter`: drop the preset and detach it if it was active. -/
def deleteFeedFilter (feed : Feed) (filterId : Str) : Feed :=
  { feed with
    savedFilters := feed.savedFilters.filter (fun f => decide (f.id ≠ filterId)),
    activeFilterId :=
      if feed.activeFilterId = some filterId then none else feed.activeFilterId }

/-- `renameFeedFilter`: reject an empty (after trim) name, truncate to
100, and rename the matching preset. -/
def renameFeedFilter (feed : Feed) (filterId newName : Str) : Feed :=
  let trimmedName := trimStr newName
  if trimmedName.length = 0 then feed
  else
    let sanitizedName := trimmedName.take MAX_FILTER_NAME_LENGTH
    { feed with
      savedFilters := feed.savedFilters.map
        (fun f => if f.id = filterId then { f with name := sanitizedName } else f) }

/-- `updateFeedFilter`: overwrite the matching preset's excluded set with
a copy of the current `excludedChatIds` — note: without the
MAX_EXCLUDED_CHATS cap applied by `saveFeedFilter`. -/
def updateFeedFilter (feed : Feed) (filterId : Str) : Feed :=
  { feed with
    savedFilters := feed.savedFilters.map
      (fun f =>
        if f.id = filterId then { f with excludedChatIds := feed.excludedChatIds }
        else f) }

/-- `applyFeedFilter`: look up the preset; if found, recompute
`messageIds` client-side from `allMessageIds` (falling back to the
current `messageIds` when `allMessageIds` is empty) and record the
active preset. -/
def applyFeedFilter (feed : Feed) (filterId : Str) : Feed :=
  match feed.savedFilters.find? (fun f => decide (f.id = filterId)) with
  | none => feed
  | some filter =>
    let sourceMessageIds :=
      if 0 < feed.allMessageIds.length then feed.allMessageIds else feed.messageIds
    let messageIds :=
      if 0 < filter.excludedChatIds.length then
        sourceMessageIds.filter (fun k => decide (k.1 ∉ filter.excludedChatIds))
      else sourceMessageIds
    { feed with
      excludedChatIds := filter.excludedChatIds,
      messageIds := messageIds,
      activeFilterId := some filterId }

/-- `clearFeedFilter`: clear exclusions, show the full canonical
timeline, detach the active preset. -/
def clearFeedFilter (feed : Feed) : Feed :=
  { feed with
    excludedChatIds := [],
    messageIds := feed.allMessageIds,
    activeFilterId := none }

/-- `detachFeedFilter`. -/
def detachFeedFilter (feed : Feed) : Feed := { feed with activeFilterId := none }

/-- `setFeedInitialScroll`. -/
def setFeedInitialScroll (feed : Feed) : Feed := { feed with hasInitialScroll := true }

/-- `saveFeedScrollPosition`. -/
def saveFeedScrollPosition (feed : Feed) (scrollPosition : Nat) : Feed :=
  { feed with scrollPosition := scrollPosition }

/-- A chat as the eligibility filter sees it.  Modelled from the spec:
`isChatChannel` / `isChatGroup` / `selectIsChatWithSelf` (not under
src/) test the chat kind and the sentinel self chat; we record their
outcomes as fields. -/
structure Chat where
  id : Str
  isChannel : Bool
  isGroup : Bool
  isSelf : Bool
deriving DecidableEq, Inhabited

/-- CHANNELS_TO_LOAD = 100. -/
def CHANNELS_TO_LOAD : Nat := 100

/-- The eligible source set of a load: known chats minus excluded ones
minus the self chat, restricted to channels/groups, capped at
CHANNELS_TO_LOAD. -/
def eligibleChatIds (chats : List Chat) (excludedChatIds : List Str) : List Str :=
  ((chats.filter (fun c =>
      decide (c.id ∉ excludedChatIds) && !c.isSelf && (c.isChannel || c.isGroup))).map
    (fun c => c.id)).take CHANNELS_TO_LOAD

/-- `loadFeedMessages` (initial load / refresh): fan out one fetch per
eligible source (`fetch cid = none` models a rejected page request).
`Promise.all` rejects as soon as any fetch fails, so the catch path only
clears `isLoading` and merges nothing; on success all pages are
concatenated, merged (`initialMerge`) into `allMessageIds`, and
`messageIds` is the client-side filtered view. -/
def loadFeedMessages (chats : List Chat) (feed : Feed)
    (fetch : Str → Option (List Msg)) : Feed :=
  let eligible := eligibleChatIds chats feed.excludedChatIds
  if eligible.any (fun cid => (fetch cid).isNone) then
    { feed with isLoading := false }
  else
    let allMessages := eligible.flatMap (fun cid => (fetch cid).getD [])
    let filteredMessages := initialMerge allMessages
    let allMessageIds := filteredMessages.map getSearchResultKey
    let messageIds :=
      if 0 < feed.excludedChatIds.length then
        allMessageIds.filter (fun k => decide (k.1 ∉ feed.excludedChatIds))
      else allMessageIds
    { feed with
      allMessageIds := allMessageIds,
      messageIds := messageIds,
      isLoading := false }

/-- Look up a message in the global message store (`byChatId[..].byId[..]`). -/
def lookupMsg (store : List Msg) (k : Key) : Option Msg :=
  store.find? (fun m => decide (getSearchResultKey m = k))

/-- Outcome of `loadMoreFeedMessages`: the resulting feed state, whether
per-source fetches were issued, and whether the call delegated to
`loadFeedMessages` (the empty-timeline fallback). -/
structure LoadMoreResult where
  feed : Feed
  fetched : Bool
  delegated : Bool
deriving DecidableEq

/-- `loadMoreFeedMessages` (backward pagination): no-op while a load is
in flight; with an empty timeline it sets `isLoadingMore` and delegates
to `loadFeedMessages` (without clearing the flag); otherwise it fetches
older pages (a `none` result models a rejection, which aborts the merge),
merges them with the messages of the current *filtered* timeline
resolved through the store, and replaces both timelines. -/
def loadMoreFeedMessages (store : List Msg) (feed : Feed)
    (results : List (Str × Option (List Msg))) : LoadMoreResult :=
  if feed.isLoadingMore || feed.isLoading then ⟨feed, false, false⟩
  else
    match feed.messageIds.head? with
    | none => ⟨{ feed with isLoadingMore := true }, false, true⟩
    | some oldestKey =>
      match lookupMsg store oldestKey with
      | none => ⟨{ feed with isLoadingMore := false }, false, false⟩
      | some _ =>
        if results.any (fun r => r.2.isNone) then
          ⟨{ feed with isLoadingMore := false }, true, false⟩
        else
          let newMessages := results.flatMap (fun r => r.2.getD [])
          if newMessages.isEmpty then
            ⟨{ feed with isLoadingMore := false }, true, false⟩
          else
            let existingMessages := feed.messageIds.filterMap (lookupMsg store)
            let filteredMessages := paginationMerge newMessages existingMessages
            let newAllMessageIds := filteredMessages.map getSearchResultKey
            let newMessageIds :=
              if 0 < feed.excludedChatIds.length then
                newAllMessageIds.filter (fun k => decide (k.1 ∉ feed.excludedChatIds))
              else newAllMessageIds
            ⟨{ feed with
                allMessageIds := newAllMessageIds,
                messageIds := newMessageIds,
                isLoadingMore := false }, true, false⟩

/-- `Math.ceil(a / b)` on naturals (b > 0 in every use). -/
def ceilDivNat (a b : Nat) : Nat := (a + b - 1) / b

/-- The window computed by `useFeedVirtualization`. -/
structure VisibleRange where
  startIndex : Nat
  endIndex : Nat
  offsetY : Nat
  totalHeight : Nat
deriving DecidableEq

/-- The virtualization window: zero range for an empty list; otherwise
the first visible index minus overscan (clamped at 0 — natural
subtraction models `Math.max(0, start - overscan)`), the last visible
index plus overscan (clamped at the item count), the translate offset
and total scroll height under the uniform-height estimate. -/
def computeVisibleRange (itemCount scrollTop containerHeight
    estimatedItemHeight overscan : Nat) : VisibleRange :=
  if itemCount = 0 then ⟨0, 0, 0, 0⟩
  else
    let total := itemCount * estimatedItemHeight
    let floorIdx := scrollTop / estimatedItemHeight
    let start := floorIdx - overscan
    let visibleCount := ceilDivNat containerHeight estimatedItemHeight
    let endIdx := min itemCount (floorIdx + visibleCount + overscan)
    ⟨start, endIdx, start * estimatedItemHeight, total⟩

/-- The feed states reachable from the opened-feed initial state by the
feed actions (loads, pagination, filter operations, scroll bookkeeping). -/
inductive Reachable : Feed → Prop
  | init : Reachable initFeed
  | load {s} (chats fetch) : Reachable s → Reachable (loadFeedMessages chats s fetch)
  | loadMore {s} (store results) : Reachable s →
      Reachable (loadMoreFeedMessages store s results).feed
  | applyF {s} (fid) : Reachable s → Reachable (applyFeedFilter s fid)
  | clearF {s} : Reachable s → Reachable (clearFeedFilter s)
  | toggle {s} (cid) : Reachable s → Reachable (toggleFeedChannelExclusion s cid)
  | save {s} (name now) : Reachable s → Reachable (saveFeedFilter s name now)
  | deleteF {s} (fid) : Reachable s → Reachable (deleteFeedFilter s fid)
  | renameF {s} (fid nn) : Reachable s → Reachable (renameFeedFilter s fid nn)
  | updateF {s} (fid) : Reachable s → Reachable (updateFeedFilter s fid)
  | detach {s} : Reachable s → Reachable (detachFeedFilter s)
  | setScroll {s} : Reachable s → Reachable (setFeedInitialScroll s)
  | saveScroll {s} (n) : Reachable s → Reachable (saveFeedScrollPosition s n)

/-- The data-model bounds a preset must satisfy: name of 1..100
characters, at most 500 excluded source ids. -/
def filterBoundsOK (f : FeedFilter) : Prop :=
  1 ≤ f.name.length ∧ f.name.length ≤ MAX_FILTER_NAME_LENGTH ∧
    f.excludedChatIds.length ≤ MAX_EXCLUDED_CHATS

instance (f : FeedFilter) : Decidable (filterBoundsOK f) := by
  unfold filterBoundsOK
  infer_instance

/-- Shorthand for a plain standalone message without text or media. -/
def mkMsg (chat : Str) (id : Nat) (date : Int) : Msg :=
  { chatId := chat, id := id, date := date, groupedId := none, text := none,
    photo := none, video := none }

/-- Example source id. -/
def chA : Str := "A".data

/-- Example source id. -/
def chB : Str := "B".data

/-- Example source id. -/
def chC : Str := "C".data

/-- Example album group id. -/
def gidX : Str := "g1".data

/-- Example text payload. -/
def txtHello : Str := "hello".data

/-- Example text payload. -/
def txtCap : Str := "cap".data

/-- C1 example: the message source A returns successfully. -/
def c1msgA : Msg := { mkMsg chA 1 100 with text := some txtHello }

/-- C1 example: two channels, A and B. -/
def c1chats : List Chat :=
  [{ id := chA, isChannel := true, isGroup := false, isSelf := false },
   { id := chB, isChannel := true, isGroup := false, isSelf := false }]

/-- C1 example: the fetch for A succeeds with one message, the fetch for
B fails. -/
def c1fetch : Str → Option (List Msg) :=
  fun cid => if cid = chA then some [c1msgA] else none

/-- C2 witness input: two messages with distinct composite keys, given
out of date order. -/
def c2ms : List Msg := [mkMsg chA 1 5, mkMsg chB 2 3]

/-- C3 example: first album member (no own text). -/
def c3a : Msg := { mkMsg chA 1 10 with groupedId := some gidX, photo := some none }

/-- C3 example: second album member (no own text). -/
def c3b : Msg := { mkMsg chA 2 11 with groupedId := some gidX, photo := some none }

/-- C3 example: the first standalone strictly later than the album, with
no text and no media — the claim predicts this one is consumed. -/
def c3p : Msg := mkMsg chA 3 12

/-- C3 example: a later standalone with text — the code consumes this one. -/
def c3s : Msg := { mkMsg chA 4 13 with text := some txtCap }

/-- C3 counterexample input. -/
def c3ms : List Msg := [c3a, c3b, c3p, c3s]

/-- C3 witness input: an album with no own text followed by a standalone
text item (the spec §8 scenario). -/
def c3wms : List Msg := [c3a, c3b, c3s]

/-- C4 example store. -/
def c4store : List Msg := [mkMsg chA 1 100, mkMsg chB 2 101]

/-- C4 example: feed with source B excluded, so the filtered timeline
lacks B while the canonical timeline contains it. -/
def c4feed : Feed :=
  { initFeed with
    allMessageIds := [(chA, 1), (chB, 2)],
    messageIds := [(chA, 1)],
    excludedChatIds := [chB] }

/-- C4 example pagination result: source A returns one older message. -/
def c4results : List (Str × Option (List Msg)) := [(chA, some [mkMsg chA 3 50])]

/-- C5 example: nothing excluded yet, both items visible. -/
def c5feed : Feed :=
  { initFeed with
    allMessageIds := [(chA, 1), (chB, 2)],
    messageIds := [(chA, 1), (chB, 2)] }

/-- C5 witness: a saved preset excluding source B. -/
def c5filter : FeedFilter := { id := "f1".data, name := "News".data, excludedChatIds := [chB] }

/-- C5 witness feed state: the preset saved and both items loaded. -/
def c5wfeed : Feed := { c5feed with savedFilters := [c5filter] }

/-- C7 example preset within bounds. -/
def c7filter : FeedFilter := { id := "f1".data, name := "News".data, excludedChatIds := [] }

/-- C7 counterexample state: 501 sources currently excluded while a
preset exists. -/
def c7feed : Feed :=
  { initFeed with
    excludedChatIds := List.replicate 501 chC,
    savedFilters := [c7filter] }

/-- C10 example: first album member (no own text). -/
def c10a : Msg := { mkMsg chA 10 10 with groupedId := some gidX, photo := some none }

/-- C10 example: second album member (no own text). -/
def c10b : Msg := { mkMsg chA 11 11 with groupedId := some gidX, photo := some none }

/-- C10 example: standalone text item of source A with itemId 5 — the
one the code consumes as the album caption. -/
def c10s1 : Msg := { mkMsg chA 5 12 with text := some txtHello }

/-- C10 example: standalone text item of source B sharing bare itemId 5. -/
def c10s2 : Msg := { mkMsg chB 5 13 with text := some txtCap }

/-- C10 counterexample input. -/
def c10ms : List Msg := [c10a, c10b, c10s1, c10s2]

/-- C1: the spec requires that a partial fetch failure not abort the
whole initial load, with the succeeding sources still merged.  The code
joins the fan-out with an all-or-nothing `Promise.all`, so when the fetch
for B fails the message successfully fetched from A is *not* merged into
the canonical timeline, although `isLoading` is cleared.  This evaluates
the load at that failing input. -/
theorem loadFeed_partial_failure_aborts_merge :
    (loadFeedMessages c1chats initFeed c1fetch).isLoading = false ∧
    (loadFeedMessages c1chats initFeed c1fetch).allMessageIds = [] ∧
    getSearchResultKey c1msgA ∉ (loadFeedMessages c1chats initFeed c1fetch).allMessageIds := by
  decide

/-- C10: consolidation tracks consumed standalone caption items by bare
numeric itemId: here the standalone items of sources A and B share
itemId 5, A's is consumed as the album caption, and B's is dropped from
the consolidated output as well. -/
theorem consolidate_consumes_by_bare_id :
    c10s1.chatId ≠ c10s2.chatId ∧ c10s1.id = c10s2.id ∧
    c10s1.groupedId = none ∧ c10s2.groupedId = none ∧
    consolidate c10ms = [{ c10a with text := c10s1.text }] ∧
    c10s2 ∉ consolidate c10ms := by
  decide

/-- C3 counterexample: the claim says the borrowed caption comes from the
first not-yet-consumed standalone whose timestamp is strictly later than
the album's maximum.  Here that item is `c3p` (no text, no media); the
code skips it — it additionally requires truthy text and no photo/video —
and borrows from `c3s` instead, leaving `c3p` in the output. -/
theorem consolidate_first_later_standalone_refuted :
    (standaloneOf c3ms).find?
        (fun m => decide (albumMax (membersOf c3ms gidX) < m.date) &&
          decide (m.id ∉ ([] : List Nat))) = some c3p ∧
    (consolidate c3ms).filter (fun m => decide (m.groupedId = some gidX)) =
      [{ c3a with text := c3s.text }] ∧
    (⟨chA, 1, 10, some gidX, c3s.text, some none, none⟩ : Msg).text ≠ c3p.text ∧
    c3p ∈ consolidate c3ms := by
  decide

/-- C4: the spec says nothing but an explicit reset shrinks the
canonical timeline, but `loadMoreFeedMessages` rebuilds it from the
*filtered* `messageIds`: with source B excluded, pagination drops B's
item from `allMessageIds`. -/
theorem pagination_shrinks_canonical_timeline :
    (chB, 2) ∈ c4feed.allMessageIds ∧
    (loadMoreFeedMessages c4store c4feed c4results).fetched = true ∧
    (chB, 2) ∉ (loadMoreFeedMessages c4store c4feed c4results).feed.allMessageIds := by
  decide

/-- C5 counterexample: `toggleFeedChannelExclusion` changes the excluded
set but does not recompute the filtered timeline, so after toggling B the
filtered timeline is not the canonical timeline minus B's items. -/
theorem toggle_does_not_recompute_refuted :
    (toggleFeedChannelExclusion c5feed chB).excludedChatIds = [chB] ∧
    (toggleFeedChannelExclusion c5feed chB).messageIds ≠
      (toggleFeedChannelExclusion c5feed chB).allMessageIds.filter
        (fun k => decide (k.1 ∉ (toggleFeedChannelExclusion c5feed chB).excludedChatIds)) := by
  decide

set_option maxRecDepth 4000 in
/-- C7 counterexample: `updateFeedFilter` copies the live excluded set
into the preset without the 500-entry cap, so with 501 excluded sources
the updated (and persisted) preset violates the data-model bound. -/
theorem updateFilter_excluded_bound_refuted :
    ((updateFeedFilter c7feed c7filter.id).savedFilters.any
      (fun f => decide (MAX_EXCLUDED_CHATS < f.excludedChatIds.length))) = true := by
  decide

/-- C8 counterexample: with no load in flight and an empty timeline,
`loadOlder` does delegate to the initial load, but it does not leave the
rest of the state unchanged: it sets `isLoadingMore` first (and the
fallback never clears it). -/
theorem loadOlder_empty_fallback_mutates_refuted :
    (loadMoreFeedMessages [] initFeed []).delegated = true ∧
    (loadMoreFeedMessages [] initFeed []).feed ≠ initFeed := by
  decide

/-- C8 (amended): with a load already in flight, `loadOlder` returns the
state unchanged and issues no fetch; with no load in flight and an empty
timeline it issues no fetch and delegates to the initial load, changing
exactly one thing: it sets `isLoadingMore` (which the fallback does not
clear). -/
theorem loadOlder_guard_and_fallback (store : List Msg) (feed : Feed)
    (results : List (Str × Option (List Msg))) :
    ((feed.isLoadingMore || feed.isLoading) = true →
      loadMoreFeedMessages store feed results = ⟨feed, false, false⟩) ∧
    ((feed.isLoadingMore || feed.isLoading) = false → feed.messageIds = [] →
      loadMoreFeedMessages store feed results =
        ⟨{ feed with isLoadingMore := true }, false, true⟩) := by
  constructor
  · intro h
    simp [loadMoreFeedMessages, h]
  · intro h h2
    simp [loadMoreFeedMessages, h, h2]

/-- Witness for `loadOlder_guard_and_fallback` at concrete states. -/
theorem loadOlder_guard_and_fallback_witness :
    loadMoreFeedMessages [] { initFeed with isLoading := true } [] =
      ⟨{ initFeed with isLoading := true }, false, false⟩ ∧
    loadMoreFeedMessages [] initFeed [] =
      ⟨{ initFeed with isLoadingMore := true }, false, true⟩ :=
  ⟨(loadOlder_guard_and_fallback [] { initFeed with isLoading := true } []).1 (by decide),
   (loadOlder_guard_and_fallback [] initFeed []).2 (by decide) (by decide)⟩

/-- C9: the virtualization window computes exactly the documented
formulas: `startIndex = max(0, floor(scrollOffset / itemHeight) -
overscan)`, `endIndex = min(itemCount, floor(scrollOffset / itemHeight) +
ceil(containerHeight / itemHeight) + overscan)`, `topOffset = startIndex
* itemHeight`, `totalHeight = itemCount * itemHeight`, and the all-zero
window for `itemCount = 0`. -/
theorem computeVisibleRange_formulas (n s ch h ov : Nat) :
    computeVisibleRange 0 s ch h ov = ⟨0, 0, 0, 0⟩ ∧
    (0 < n →
      ((computeVisibleRange n s ch h ov).startIndex : Int) =
        max 0 (((s / h : Nat) : Int) - (ov : Int)) ∧
      (computeVisibleRange n s ch h ov).endIndex =
        min n (s / h + ceilDivNat ch h + ov) ∧
      (computeVisibleRange n s ch h ov).offsetY =
        (computeVisibleRange n s ch h ov).startIndex * h ∧
      (computeVisibleRange n s ch h ov).totalHeight = n * h) := by
  constructor
  · rfl
  · intro hn
    have hn0 : n ≠ 0 := Nat.pos_iff_ne_zero.mp hn
    simp only [computeVisibleRange, hn0, if_false]
    refine ⟨by omega, by trivial, by trivial, by trivial⟩

/-- Witness for `computeVisibleRange_formulas` at a concrete input. -/
theorem computeVisibleRange_formulas_witness :
    computeVisibleRange 0 700 800 350 5 = ⟨0, 0, 0, 0⟩ ∧
    (((computeVisibleRange 10 700 800 350 5).startIndex : Int) =
        max 0 (((700 / 350 : Nat) : Int) - (5 : Int)) ∧
      (computeVisibleRange 10 700 800 350 5).endIndex =
        min 10 (700 / 350 + ceilDivNat 800 350 + 5) ∧
      (computeVisibleRange 10 700 800 350 5).offsetY =
        (computeVisibleRange 10 700 800 350 5).startIndex * 350 ∧
      (computeVisibleRange 10 700 800 350 5).totalHeight = 10 * 350) :=
  ⟨(computeVisibleRange_formulas 10 700 800 350 5).1,
   (computeVisibleRange_formulas 10 700 800 350 5).2 (by decide)⟩

/-- C5 (amended): applying a preset (with a non-empty canonical
timeline) and clearing the filter recompute the filtered timeline as the
pure filter of the canonical timeline by the new excluded set, with no
refetch; `toggleSourceExclusion`, however, only updates the excluded set
and leaves both timelines untouched (recomputation happens at the next
load or apply). -/
theorem filter_ops_recompute_or_preserve (feed : Feed) (filterId : Str)
    (f : FeedFilter) (chatId : Str)
    (hf : feed.savedFilters.find? (fun x => decide (x.id = filterId)) = some f)
    (hne : feed.allMessageIds ≠ []) :
    (applyFeedFilter feed filterId).messageIds =
      feed.allMessageIds.filter
        (fun k => decide (k.1 ∉ (applyFeedFilter feed filterId).excludedChatIds)) ∧
    (clearFeedFilter feed).messageIds =
      (clearFeedFilter feed).allMessageIds.filter
        (fun k => decide (k.1 ∉ (clearFeedFilter feed).excludedChatIds)) ∧
    (toggleFeedChannelExclusion feed chatId).messageIds = feed.messageIds ∧
    (toggleFeedChannelExclusion feed chatId).allMessageIds = feed.allMessageIds := by
  refine ⟨?_, ?_, rfl, rfl⟩
  · simp only [applyFeedFilter, hf, List.length_pos.mpr hne, if_pos]
    by_cases hex : 0 < f.excludedChatIds.length
    · simp [hex]
    · have : f.excludedChatIds = [] := by
        simpa using List.length_eq_zero.mp (Nat.eq_zero_of_not_pos hex)
      simp [hex, this]
  · simp [clearFeedFilter]

/-- C7 (amended): saving and renaming presets, and loading them from
storage, preserve the data-model bounds (name 1..100 characters, at most
500 excluded ids, at most 50 presets in memory and in storage);
`updateFeedFilter`, however, copies the live excluded set into the
preset without the 500-entry cap, so it can persist an oversized preset
(dropped only by validation at the next load from storage). -/
theorem preset_bounds_preserved (feed : Feed) (name : Str) (now : Nat)
    (filterId newName : Str) (stored : Option (List FeedFilter))
    (hall : ∀ f ∈ feed.savedFilters, filterBoundsOK f)
    (hcnt : feed.savedFilters.length ≤ MAX_FILTERS) :
    (∀ f ∈ (saveFeedFilter feed name now).savedFilters, filterBoundsOK f) ∧
    (saveFeedFilter feed name now).savedFilters.length ≤ MAX_FILTERS ∧
    (∀ f ∈ (renameFeedFilter feed filterId newName).savedFilters, filterBoundsOK f) ∧
    (renameFeedFilter feed filterId newName).savedFilters.length = feed.savedFilters.length ∧
    (∀ f ∈ loadFiltersFromStorage stored, filterBoundsOK f) ∧
    (loadFiltersFromStorage stored).length ≤ MAX_FILTERS ∧
    (saveFiltersToStorage feed.savedFilters).length ≤ MAX_FILTERS := by
  refine ⟨?_, ?_, ?_, ?_, ?_, ?_, ?_⟩
  · intro f hf
    unfold saveFeedFilter at hf
    by_cases h0 : (trimStr name).length = 0
    · simp only [h0, if_pos] at hf
      exact hall f hf
    · simp only [h0, if_neg, if_false] at hf
      by_cases hmax : MAX_FILTERS ≤ feed.savedFilters.length
      · rw [if_pos hmax] at hf
        exact hall f hf
      · rw [if_neg hmax] at hf
        rcases List.mem_append.mp hf with h | h
        · exact hall f h
        · rcases List.mem_singleton.mp h with rfl
          refine ⟨?_, ?_, ?_⟩
          · simp only [List.length_take, le_min_iff]
            exact ⟨by decide, Nat.one_le_iff_ne_zero.mpr h0⟩
          · simp [List.length_take]
          · simp [List.length_take]
  · unfold saveFeedFilter
    by_cases h0 : (trimStr name).length = 0
    · simpa [h0] using hcnt
    · simp only [h0, if_neg, if_false]
      by_cases hmax : MAX_FILTERS ≤ feed.savedFilters.length
      · rw [if_pos hmax]
        exact hcnt
      · rw [if_neg hmax]
        simp only [List.length_append, List.length_cons, List.length_nil]
        omega
  · intro f hf
    unfold renameFeedFilter at hf
    by_cases h0 : (trimStr newName).length = 0
    · simp only [h0, if_pos] at hf
      exact hall f hf
    · simp only [h0, if_neg, if_false] at hf
      rcases List.mem_map.mp hf with ⟨g, hg, hgf⟩
      by_cases hid : g.id = filterId
      · rw [if_pos hid] at hgf
        subst hgf
        refine ⟨?_, ?_, (hall g hg).2.2⟩
        · simp only [List.length_take, le_min_iff]
          exact ⟨by decide, Nat.one_le_iff_ne_zero.mpr h0⟩
        · simp [List.length_take]
      · rw [if_neg hid] at hgf
        subst hgf
        exact hall g hg
  · unfold renameFeedFilter
    by_cases h0 : (trimStr newName).length = 0
    · simp [h0]
    · simp [h0]
  · intro f hf
    match stored with
    | none => simp [loadFiltersFromStorage] at hf
    | some parsed =>
      simp only [loadFiltersFromStorage] at hf
      have hmem := List.mem_filter.mp (List.mem_of_mem_take hf)
      have hv := hmem.2
      simp only [isValidFilter, Bool.and_eq_true, decide_eq_true_eq] at hv
      obtain ⟨⟨⟨⟨⟨hA, hB⟩, hC⟩, hD⟩, hE⟩, hF⟩ := hv
      exact ⟨hC, hD, hE⟩
  · match stored with
    | none => simp [loadFiltersFromStorage, MAX_FILTERS]
    | some parsed => simp [loadFiltersFromStorage]
  · simp [saveFiltersToStorage]

/-- Witness for `preset_bounds_preserved` at a concrete state. -/
theorem preset_bounds_preserved_witness :
    (∀ f ∈ (saveFeedFilter c5wfeed txtHello 7).savedFilters, filterBoundsOK f) ∧
    (saveFeedFilter c5wfeed txtHello 7).savedFilters.length ≤ MAX_FILTERS ∧
    (∀ f ∈ (renameFeedFilter c5wfeed c5filter.id txtCap).savedFilters, filterBoundsOK f) ∧
    (renameFeedFilter c5wfeed c5filter.id txtCap).savedFilters.length =
      c5wfeed.savedFilters.length ∧
    (∀ f ∈ loadFiltersFromStorage (some [c5filter]), filterBoundsOK f) ∧
    (loadFiltersFromStorage (some [c5filter])).length ≤ MAX_FILTERS ∧
    (saveFiltersToStorage c5wfeed.savedFilters).length ≤ MAX_FILTERS :=
  preset_bounds_preserved c5wfeed txtHello 7 c5filter.id txtCap (some [c5filter])
    (by decide) (by decide)

/-- Witness for `filter_ops_recompute_or_preserve` at a concrete state. -/
theorem filter_ops_recompute_or_preserve_witness :
    (applyFeedFilter c5wfeed c5filter.id).messageIds =
      c5wfeed.allMessageIds.filter
        (fun k => decide (k.1 ∉ (applyFeedFilter c5wfeed c5filter.id).excludedChatIds)) ∧
    (clearFeedFilter c5wfeed).messageIds =
      (clearFeedFilter c5wfeed).allMessageIds.filter
        (fun k => decide (k.1 ∉ (clearFeedFilter c5wfeed).excludedChatIds)) ∧
    (toggleFeedChannelExclusion c5wfeed chB).messageIds = c5wfeed.messageIds ∧
    (toggleFeedChannelExclusion c5wfeed chB).allMessageIds = c5wfeed.allMessageIds :=
  filter_ops_recompute_or_preserve c5wfeed c5filter.id c5filter chB (by decide) (by decide)


/-- A non-empty list contains its `headI`. -/
theorem headI_mem_of_ne_nil {α} [Inhabited α] {l : List α} (h : l ≠ []) :
    l.headI ∈ l := by
  cases l with
  | nil => exact absurd rfl h
  | cons a t => simp

/-- Membership in an album bucket. -/
theorem mem_membersOf {msgs : List Msg} {g : Str} {m : Msg} :
    m ∈ membersOf msgs g ↔ m ∈ msgs ∧ m.groupedId = some g := by
  simp [membersOf]

/-- Membership among the standalone messages. -/
theorem mem_standaloneOf {msgs : List Msg} {m : Msg} :
    m ∈ standaloneOf msgs ↔ m ∈ msgs ∧ m.groupedId = none := by
  simp [standaloneOf]

/-- `groupStep` on a standalone message. -/
theorem groupStep_none {acc : List Str} {m : Msg} (h : m.groupedId = none) :
    groupStep acc m = acc := by
  simp [groupStep, h]

/-- `groupStep` on a grouped message whose key is already present. -/
theorem groupStep_some_mem {acc : List Str} {m : Msg} {g : Str}
    (h : m.groupedId = some g) (hg : g ∈ acc) : groupStep acc m = acc := by
  simp [groupStep, h, hg]

/-- `groupStep` on a grouped message with a fresh key. -/
theorem groupStep_some_not_mem {acc : List Str} {m : Msg} {g : Str}
    (h : m.groupedId = some g) (hg : g ∉ acc) : groupStep acc m = acc ++ [g] := by
  simp [groupStep, h, hg]

/-- `groupStep` preserves accumulator membership. -/
theorem mem_groupStep {acc : List Str} {m : Msg} {g : Str} (h : g ∈ acc) :
    g ∈ groupStep acc m := by
  cases hm : m.groupedId with
  | none => rw [groupStep_none hm]; exact h
  | some g2 =>
    by_cases hg : g2 ∈ acc
    · rw [groupStep_some_mem hm hg]; exact h
    · rw [groupStep_some_not_mem hm hg]; exact List.mem_append_left _ h

/-- Monotonicity of the group-key fold. -/
theorem mem_foldl_groupStep {l : List Msg} {acc : List Str} {g : Str} (h : g ∈ acc) :
    g ∈ l.foldl groupStep acc := by
  induction l generalizing acc with
  | nil => exact h
  | cons m t ih => exact ih (mem_groupStep h)

/-- Keys produced by the group-key fold come from the accumulator or from
a grouped message of the list. -/
theorem of_mem_foldl_groupStep {l : List Msg} {acc : List Str} {g : Str}
    (h : g ∈ l.foldl groupStep acc) :
    g ∈ acc ∨ ∃ m ∈ l, m.groupedId = some g := by
  induction l generalizing acc with
  | nil => exact Or.inl h
  | cons m t ih =>
    rcases ih h with h2 | h2
    · cases hm : m.groupedId with
      | none =>
        rw [groupStep_none hm] at h2
        exact Or.inl h2
      | some g2 =>
        by_cases hg : g2 ∈ acc
        · rw [groupStep_some_mem hm hg] at h2
          exact Or.inl h2
        · rw [groupStep_some_not_mem hm hg] at h2
          rcases List.mem_append.mp h2 with h3 | h3
          · exact Or.inl h3
          · rcases List.mem_singleton.mp h3 with rfl
            exact Or.inr ⟨m, List.mem_cons_self m t, hm⟩
    · obtain ⟨x, hx, hgx⟩ := h2
      exact Or.inr ⟨x, List.mem_cons_of_mem _ hx, hgx⟩

/-- Every grouped message's group id appears in the fold's result. -/
theorem groupedId_mem_foldl {l : List Msg} {acc : List Str} {m : Msg} {g : Str}
    (hm : m ∈ l) (hg : m.groupedId = some g) :
    g ∈ l.foldl groupStep acc := by
  induction l generalizing acc with
  | nil => cases hm
  | cons a t ih =>
    rcases List.mem_cons.mp hm with rfl | h
    · rw [List.foldl_cons]
      apply mem_foldl_groupStep
      by_cases hacc : g ∈ acc
      · rw [groupStep_some_mem hg hacc]; exact hacc
      · rw [groupStep_some_not_mem hg hacc]
        exact List.mem_append_right _ (List.mem_singleton.mpr rfl)
    · exact ih h

/-- The group keys are exactly the grouped ids present in the input. -/
theorem mem_groupKeys {msgs : List Msg} {g : Str} :
    g ∈ groupKeys msgs ↔ ∃ m ∈ msgs, m.groupedId = some g := by
  constructor
  · intro h
    rcases of_mem_foldl_groupStep h with h2 | h2
    · cases h2
    · exact h2
  · rintro ⟨m, hm, hg⟩
    exact groupedId_mem_foldl hm hg

/-- `groupStep` keeps the accumulator duplicate-free. -/
theorem groupStep_nodup {acc : List Str} {m : Msg} (h : acc.Nodup) :
    (groupStep acc m).Nodup := by
  cases hm : m.groupedId with
  | none => rw [groupStep_none hm]; exact h
  | some g =>
    by_cases hg : g ∈ acc
    · rw [groupStep_some_mem hm hg]; exact h
    · rw [groupStep_some_not_mem hm hg]
      refine List.nodup_append.mpr ⟨h, List.nodup_singleton g, ?_⟩
      intro a ha hag
      rcases List.mem_singleton.mp hag with rfl
      exact hg ha

/-- The group-key fold keeps the accumulator duplicate-free. -/
theorem foldl_groupStep_nodup {l : List Msg} {acc : List Str} (h : acc.Nodup) :
    (l.foldl groupStep acc).Nodup := by
  induction l generalizing acc with
  | nil => exact h
  | cons m t ih => exact ih (groupStep_nodup h)

/-- The group keys are duplicate-free. -/
theorem groupKeys_nodup (msgs : List Msg) : (groupKeys msgs).Nodup :=
  foldl_groupStep_nodup List.nodup_nil

/-- A group key's bucket is non-empty. -/
theorem membersOf_ne_nil {msgs : List Msg} {g : Str} (h : g ∈ groupKeys msgs) :
    membersOf msgs g ≠ [] := by
  obtain ⟨m, hm, hg⟩ := mem_groupKeys.mp h
  exact List.ne_nil_of_mem (mem_membersOf.mpr ⟨hm, hg⟩)

/-- The group representative carries the bucket's group id. -/
theorem pickRep_groupedId (msgs standalone : List Msg) (g : Str) (used : List Nat)
    (h : membersOf msgs g ≠ []) :
    (pickRep msgs standalone g used).1.groupedId = some g := by
  unfold pickRep
  cases hf : (membersOf msgs g).find? hasOwnText with
  | some m =>
    simpa using (mem_membersOf.mp (List.mem_of_find?_eq_some hf)).2
  | none =>
    cases hs : standalone.find?
        (isCaptionCandidate (albumMax (membersOf msgs g)) used) with
    | some s => simpa using (mem_membersOf.mp (headI_mem_of_ne_nil h)).2
    | none => simpa using (mem_membersOf.mp (headI_mem_of_ne_nil h)).2

/-- The group representative's composite key is one of its bucket's keys. -/
theorem pickRep_key_mem (msgs standalone : List Msg) (g : Str) (used : List Nat)
    (h : membersOf msgs g ≠ []) :
    getSearchResultKey (pickRep msgs standalone g used).1 ∈
      (membersOf msgs g).map getSearchResultKey := by
  unfold pickRep
  cases hf : (membersOf msgs g).find? hasOwnText with
  | some m =>
    simpa using List.mem_map_of_mem getSearchResultKey (List.mem_of_find?_eq_some hf)
  | none =>
    cases hs : standalone.find?
        (isCaptionCandidate (albumMax (membersOf msgs g)) used) with
    | some s =>
      have := List.mem_map_of_mem getSearchResultKey (headI_mem_of_ne_nil h)
      simpa [getSearchResultKey] using this
    | none =>
      simpa using List.mem_map_of_mem getSearchResultKey (headI_mem_of_ne_nil h)

/-- `pickRep` only ever grows the consumed id set. -/
theorem pickRep_used_sub {msgs standalone : List Msg} {g : Str} {used : List Nat} :
    used ⊆ (pickRep msgs standalone g used).2 := by
  unfold pickRep
  cases hf : (membersOf msgs g).find? hasOwnText with
  | some m => exact fun a ha => ha
  | none =>
    cases hs : standalone.find?
        (isCaptionCandidate (albumMax (membersOf msgs g)) used) with
    | some s => exact fun a ha => List.mem_cons_of_mem _ ha
    | none => exact fun a ha => ha

/-- Unfolding of `pickReps` on a cons cell. -/
theorem pickReps_cons (msgs standalone : List Msg) (g : Str) (gs : List Str)
    (used : List Nat) :
    pickReps msgs standalone (g :: gs) used =
      ((pickRep msgs standalone g used).1 ::
        (pickReps msgs standalone gs (pickRep msgs standalone g used).2).1,
       (pickReps msgs standalone gs (pickRep msgs standalone g used).2).2) := rfl

/-- `pickReps` only ever grows the consumed id set. -/
theorem pickReps_used_sub (msgs standalone : List Msg) (gs : List Str) :
    ∀ used, used ⊆ (pickReps msgs standalone gs used).2 := by
  induction gs with
  | nil => exact fun used a ha => ha
  | cons g t ih =>
    intro used a ha
    rw [pickReps_cons]
    exact ih _ (pickRep_used_sub ha)

/-- Every selected representative stems from the bucket of one of the
processed group keys. -/
theorem pickReps_mem_spec {msgs standalone : List Msg} {gs : List Str}
    (hgs : ∀ g ∈ gs, membersOf msgs g ≠ []) :
    ∀ {used : List Nat} {x : Msg}, x ∈ (pickReps msgs standalone gs used).1 →
      ∃ g ∈ gs, x.groupedId = some g ∧
        getSearchResultKey x ∈ (membersOf msgs g).map getSearchResultKey := by
  induction gs with
  | nil => intro used x hx; cases hx
  | cons g t ih =>
    intro used x hx
    rw [pickReps_cons] at hx
    rcases List.mem_cons.mp hx with rfl | h
    · exact ⟨g, List.mem_cons_self g t,
        pickRep_groupedId _ _ _ _ (hgs g (List.mem_cons_self g t)),
        pickRep_key_mem _ _ _ _ (hgs g (List.mem_cons_self g t))⟩
    · obtain ⟨g2, hg2, h3, h4⟩ :=
        ih (fun g2 hg2 => hgs g2 (List.mem_cons_of_mem _ hg2)) h
      exact ⟨g2, List.mem_cons_of_mem _ hg2, h3, h4⟩

/-- With duplicate-free input keys and duplicate-free group keys, the
selected representatives have duplicate-free composite keys. -/
theorem pickReps_keys_nodup {msgs standalone : List Msg}
    (hnd : (msgs.map getSearchResultKey).Nodup) :
    ∀ {gs : List Str}, (∀ g ∈ gs, membersOf msgs g ≠ []) → gs.Nodup →
      ∀ used, ((pickReps msgs standalone gs used).1.map getSearchResultKey).Nodup := by
  intro gs
  induction gs with
  | nil => intro _ _ used; simp [pickReps]
  | cons g t ih =>
    intro hgs hgsnd used
    rw [pickReps_cons, List.map_cons]
    refine List.nodup_cons.mpr ⟨?_, ih (fun g2 hg2 => hgs g2 (List.mem_cons_of_mem _ hg2))
      (List.nodup_cons.mp hgsnd).2 _⟩
    intro hmem
    rcases List.mem_map.mp hmem with ⟨y, hy, hky⟩
    obtain ⟨g2, hg2, hgid2, hkey2⟩ :=
      pickReps_mem_spec (fun g2 hg2 => hgs g2 (List.mem_cons_of_mem _ hg2)) hy
    have h1 := pickRep_key_mem msgs standalone g used
      (hgs g (List.mem_cons_self g t))
    rcases List.mem_map.mp h1 with ⟨a, ha, hka⟩
    rcases List.mem_map.mp hkey2 with ⟨b, hb, hkb⟩
    have hab : a = b := by
      apply List.inj_on_of_nodup_map hnd (mem_membersOf.mp ha).1 (mem_membersOf.mp hb).1
      rw [hka, hkb, hky]
    have hgg : some g = some g2 := by
      rw [← (mem_membersOf.mp ha).2, hab, (mem_membersOf.mp hb).2]
    cases hgg
    exact (List.nodup_cons.mp hgsnd).1 hg2

/-- `consolidate` written without its local definitions. -/
theorem consolidate_eq (msgs : List Msg) :
    consolidate msgs = sortByDate
      ((standaloneOf msgs).filter (fun m =>
          decide (m.id ∉ (pickReps msgs (standaloneOf msgs) (groupKeys msgs) []).2)) ++
        (pickReps msgs (standaloneOf msgs) (groupKeys msgs) []).1) := rfl

/-- The consolidated output is a permutation of the surviving standalone
messages followed by the group representatives. -/
theorem consolidate_perm (msgs : List Msg) :
    List.Perm (consolidate msgs)
      ((standaloneOf msgs).filter (fun m =>
          decide (m.id ∉ (pickReps msgs (standaloneOf msgs) (groupKeys msgs) []).2)) ++
        (pickReps msgs (standaloneOf msgs) (groupKeys msgs) []).1) := by
  rw [consolidate_eq]
  exact List.perm_insertionSort dateLE _

/-- The consolidated output is sorted non-decreasing by date. -/
theorem consolidate_sorted (msgs : List Msg) :
    List.Sorted dateLE (consolidate msgs) := by
  rw [consolidate_eq]
  exact List.sorted_insertionSort dateLE _

/-- Consolidation preserves duplicate-freedom of composite keys. -/
theorem consolidate_keys_nodup {msgs : List Msg}
    (hnd : (msgs.map getSearchResultKey).Nodup) :
    ((consolidate msgs).map getSearchResultKey).Nodup := by
  rw [List.Perm.nodup_iff ((consolidate_perm msgs).map getSearchResultKey)]
  rw [List.map_append, List.nodup_append]
  refine ⟨?_, ?_, ?_⟩
  · have hsub : List.Sublist ((standaloneOf msgs).filter (fun m =>
        decide (m.id ∉ (pickReps msgs (standaloneOf msgs) (groupKeys msgs) []).2))) msgs :=
      (List.filter_sublist _).trans (List.filter_sublist _)
    exact List.Nodup.sublist (hsub.map getSearchResultKey) hnd
  · exact pickReps_keys_nodup hnd (fun g hg => membersOf_ne_nil hg) (groupKeys_nodup msgs) []
  · intro k hk1 hk2
    rcases List.mem_map.mp hk1 with ⟨x, hx, hkx⟩
    rcases List.mem_map.mp hk2 with ⟨y, hy, hky⟩
    have hxs : x ∈ standaloneOf msgs := List.mem_of_mem_filter hx
    obtain ⟨g2, hg2, hgid2, hkey2⟩ :=
      pickReps_mem_spec (fun g2 hg2 => membersOf_ne_nil hg2) hy
    rcases List.mem_map.mp hkey2 with ⟨b, hb, hkb⟩
    have hxb : x = b := by
      apply List.inj_on_of_nodup_map hnd (mem_standaloneOf.mp hxs).1 (mem_membersOf.mp hb).1
      rw [hkx, hkb, hky]
    have : (none : Option Str) = some g2 := by
      rw [← (mem_standaloneOf.mp hxs).2, hxb, (mem_membersOf.mp hb).2]
    cases this

/-- Sorting by date preserves duplicate-freedom of composite keys. -/
theorem sortByDate_keys_nodup {ms : List Msg}
    (h : (ms.map getSearchResultKey).Nodup) :
    ((sortByDate ms).map getSearchResultKey).Nodup :=
  (List.Perm.nodup_iff ((List.perm_insertionSort dateLE ms).map getSearchResultKey)).mpr h

/-- One Map insertion preserves duplicate-freedom of keys. -/
theorem upsertByKey_keys_nodup {acc : List Msg} {m : Msg}
    (h : (acc.map getSearchResultKey).Nodup) :
    ((upsertByKey acc m).map getSearchResultKey).Nodup := by
  unfold upsertByKey
  by_cases hany : acc.any (fun x => decide (getSearchResultKey x = getSearchResultKey m)) = true
  · rw [if_pos hany, List.map_map]
    have hcong : acc.map (getSearchResultKey ∘ fun x =>
        if getSearchResultKey x = getSearchResultKey m then m else x) =
        acc.map getSearchResultKey := by
      apply List.map_congr_left
      intro x hx
      by_cases hk : getSearchResultKey x = getSearchResultKey m
      · simp [Function.comp, hk]
      · simp [Function.comp, hk]
    rw [hcong]
    exact h
  · rw [if_neg hany, List.map_append]
    refine List.nodup_append.mpr ⟨h, List.nodup_singleton _, ?_⟩
    intro k hk hkm
    rcases List.mem_map.mp hk with ⟨x, hx, hkx⟩
    rcases List.mem_singleton.mp hkm with rfl
    simp only [List.any_eq_true, not_exists, not_and] at hany
    have := hany x hx
    simp only [decide_eq_true_eq] at this
    exact this hkx

/-- The Map-based fold produces duplicate-free keys from any start. -/
theorem foldl_upsert_keys_nodup {l acc : List Msg}
    (h : (acc.map getSearchResultKey).Nodup) :
    ((l.foldl upsertByKey acc).map getSearchResultKey).Nodup := by
  induction l generalizing acc with
  | nil => exact h
  | cons m t ih => exact ih (upsertByKey_keys_nodup h)

/-- Pagination deduplication always yields duplicate-free composite keys. -/
theorem dedupByKey_keys_nodup (ms : List Msg) :
    ((dedupByKey ms).map getSearchResultKey).Nodup :=
  foldl_upsert_keys_nodup (by simp)

/-- C2: after both merge operations — the initial-load merge and the
pagination merge that `loadFeedMessages` / `loadMoreFeedMessages`
install as the canonical timeline — the result is sorted non-decreasing
by timestamp and free of duplicate composite keys (for the initial load
under the gateway guarantee that the concatenated pages carry distinct
composite keys; pagination deduplicates explicitly and needs no
hypothesis). -/
theorem merge_sorted_and_nodup (ms newMessages existingMessages : List Msg) :
    List.Sorted dateLE (initialMerge ms) ∧
    ((ms.map getSearchResultKey).Nodup →
      ((initialMerge ms).map getSearchResultKey).Nodup) ∧
    List.Sorted dateLE (paginationMerge newMessages existingMessages) ∧
    ((paginationMerge newMessages existingMessages).map getSearchResultKey).Nodup := by
  refine ⟨consolidate_sorted _, ?_, consolidate_sorted _, ?_⟩
  · intro h
    exact consolidate_keys_nodup (sortByDate_keys_nodup h)
  · exact consolidate_keys_nodup (sortByDate_keys_nodup (dedupByKey_keys_nodup _))

/-- Witness for `merge_sorted_and_nodup` at a concrete input. -/
theorem merge_sorted_and_nodup_witness :
    (c2ms.map getSearchResultKey).Nodup ∧
    List.Sorted dateLE (initialMerge c2ms) ∧
    ((initialMerge c2ms).map getSearchResultKey).Nodup ∧
    List.Sorted dateLE (paginationMerge c2ms []) ∧
    ((paginationMerge c2ms []).map getSearchResultKey).Nodup :=
  ⟨by decide, (merge_sorted_and_nodup c2ms c2ms []).1,
   (merge_sorted_and_nodup c2ms c2ms []).2.1 (by decide),
   (merge_sorted_and_nodup c2ms c2ms []).2.2.1,
   (merge_sorted_and_nodup c2ms c2ms []).2.2.2⟩

/-- Splitting the representative-selection loop around a group key. -/
theorem pickReps_append (msgs standalone : List Msg) (gs1 gs2 : List Str)
    (used : List Nat) :
    pickReps msgs standalone (gs1 ++ gs2) used =
      ((pickReps msgs standalone gs1 used).1 ++
        (pickReps msgs standalone gs2 (pickReps msgs standalone gs1 used).2).1,
       (pickReps msgs standalone gs2 (pickReps msgs standalone gs1 used).2).2) := by
  induction gs1 generalizing used with
  | nil => simp [pickReps]
  | cons g t ih =>
    simp only [List.cons_append, pickReps_cons, ih]

/-- Representatives of groups other than `g` never carry `g`. -/
theorem pickReps_filter_ne {msgs standalone : List Msg} {g : Str} {gs : List Str}
    (hgs : ∀ g2 ∈ gs, membersOf msgs g2 ≠ []) (hne : ∀ g2 ∈ gs, g2 ≠ g) :
    ∀ used, (pickReps msgs standalone gs used).1.filter
      (fun m => decide (m.groupedId = some g)) = [] := by
  induction gs with
  | nil => intro used; simp [pickReps]
  | cons a t ih =>
    intro used
    rw [pickReps_cons]
    have hid := pickRep_groupedId msgs standalone a used
      (hgs a (List.mem_cons_self a t))
    have hne2 : (pickRep msgs standalone a used).1.groupedId ≠ some g := by
      rw [hid]
      intro hcontra
      exact hne a (List.mem_cons_self a t) (Option.some.inj hcontra)
    rw [List.filter_cons, decide_eq_false hne2]
    simp only [Bool.false_eq_true, if_false]
    exact ih (fun g2 hg2 => hgs g2 (List.mem_cons_of_mem _ hg2))
      (fun g2 hg2 => hne g2 (List.mem_cons_of_mem _ hg2)) _

/-- Surviving standalone messages never carry a group id. -/
theorem standalone_filter_grouped (msgs : List Msg) (g : Str) (q : Msg → Bool) :
    ((standaloneOf msgs).filter q).filter
      (fun m => decide (m.groupedId = some g)) = [] := by
  rw [List.filter_eq_nil_iff]
  intro a ha
  have h1 : a.groupedId = none := (mem_standaloneOf.mp (List.mem_of_mem_filter ha)).2
  simp [h1]

/-- Exactly one message of the consolidated output carries a present
group key: the representative selected for it (with the consumed set as
threaded up to that group). -/
theorem consolidate_survivors {msgs : List Msg} {g : Str} (hg : g ∈ groupKeys msgs) :
    ∃ gs1 gs2, groupKeys msgs = gs1 ++ g :: gs2 ∧
      (consolidate msgs).filter (fun m => decide (m.groupedId = some g)) =
        [(pickRep msgs (standaloneOf msgs) g
            (pickReps msgs (standaloneOf msgs) gs1 []).2).1] := by
  obtain ⟨gs1, gs2, hsplit⟩ := List.append_of_mem hg
  refine ⟨gs1, gs2, hsplit, ?_⟩
  have hnd := groupKeys_nodup msgs
  rw [hsplit] at hnd
  have hnd2 := List.nodup_append.mp hnd
  have hg_not1 : g ∉ gs1 := fun hmem => hnd2.2.2 hmem (List.mem_cons_self g gs2)
  have hg_not2 : g ∉ gs2 := (List.nodup_cons.mp hnd2.2.1).1
  have hmem1 : ∀ g2 ∈ gs1, g2 ∈ groupKeys msgs := by
    intro g2 h2
    rw [hsplit]
    exact List.mem_append_left _ h2
  have hmem2 : ∀ g2 ∈ gs2, g2 ∈ groupKeys msgs := by
    intro g2 h2
    rw [hsplit]
    exact List.mem_append_right _ (List.mem_cons_of_mem _ h2)
  have hperm := List.Perm.filter (fun m => decide (m.groupedId = some g))
    (consolidate_perm msgs)
  rw [List.filter_append, standalone_filter_grouped, List.nil_append] at hperm
  rw [hsplit, pickReps_append, pickReps_cons] at hperm
  rw [List.filter_append, List.filter_cons] at hperm
  rw [pickReps_filter_ne (fun g2 h2 => membersOf_ne_nil (hmem1 g2 h2))
    (fun g2 h2 heq => hg_not1 (by rw [← heq]; exact h2))] at hperm
  rw [pickReps_filter_ne (fun g2 h2 => membersOf_ne_nil (hmem2 g2 h2))
    (fun g2 h2 heq => hg_not2 (by rw [← heq]; exact h2))] at hperm
  have hid := pickRep_groupedId msgs (standaloneOf msgs) g
    (pickReps msgs (standaloneOf msgs) gs1 []).2 (membersOf_ne_nil hg)
  rw [decide_eq_true_eq.mpr hid] at hperm
  simp only [List.nil_append, if_true] at hperm
  exact List.perm_singleton.mp hperm

/-- C3 (amended): for every group id present in the input, consolidation
outputs exactly one surviving item for that group; the survivor is the
first group member (in input order) carrying non-empty own text or
caption if any member has one; otherwise it is the first member,
carrying the text of the first not-yet-consumed standalone item whose
timestamp is strictly later than the group's maximum timestamp *and
which itself has non-empty text and neither photo nor video*; that
consumed standalone item is removed from the output. -/
theorem consolidate_group_survivor (msgs : List Msg) (g : Str)
    (hg : ∃ m ∈ msgs, m.groupedId = some g) :
    ∃ gs1 gs2, groupKeys msgs = gs1 ++ g :: gs2 ∧
      ((consolidate msgs).filter (fun m => decide (m.groupedId = some g))).length = 1 ∧
      (match (membersOf msgs g).find? hasOwnText with
       | some m0 =>
         (consolidate msgs).filter (fun m => decide (m.groupedId = some g)) = [m0]
       | none =>
         match (standaloneOf msgs).find?
             (isCaptionCandidate (albumMax (membersOf msgs g))
               (pickReps msgs (standaloneOf msgs) gs1 []).2) with
         | some s =>
           (consolidate msgs).filter (fun m => decide (m.groupedId = some g)) =
             [{ (membersOf msgs g).headI with text := s.text }] ∧
           s ∉ consolidate msgs
         | none =>
           (consolidate msgs).filter (fun m => decide (m.groupedId = some g)) =
             [(membersOf msgs g).headI]) := by
  have hgk : g ∈ groupKeys msgs := mem_groupKeys.mpr hg
  obtain ⟨gs1, gs2, hsplit, hS⟩ := consolidate_survivors hgk
  refine ⟨gs1, gs2, hsplit, by rw [hS]; rfl, ?_⟩
  cases hf : (membersOf msgs g).find? hasOwnText with
  | some m0 =>
    have hrep : (pickRep msgs (standaloneOf msgs) g
        (pickReps msgs (standaloneOf msgs) gs1 []).2).1 = m0 := by
      unfold pickRep
      rw [hf]
    rw [hS, hrep]
  | none =>
    cases hs : (standaloneOf msgs).find?
        (isCaptionCandidate (albumMax (membersOf msgs g))
          (pickReps msgs (standaloneOf msgs) gs1 []).2) with
    | some s =>
      have hrep1 : (pickRep msgs (standaloneOf msgs) g
          (pickReps msgs (standaloneOf msgs) gs1 []).2).1 =
          { (membersOf msgs g).headI with text := s.text } := by
        unfold pickRep
        rw [hf, hs]
      have hrep2 : (pickRep msgs (standaloneOf msgs) g
          (pickReps msgs (standaloneOf msgs) gs1 []).2).2 =
          s.id :: (pickReps msgs (standaloneOf msgs) gs1 []).2 := by
        unfold pickRep
        rw [hf, hs]
      refine ⟨by rw [hS, hrep1], ?_⟩
      have hsmem : s ∈ standaloneOf msgs := List.mem_of_find?_eq_some hs
      have hsid_final : s.id ∈
          (pickReps msgs (standaloneOf msgs) (groupKeys msgs) []).2 := by
        rw [hsplit]
        simp only [pickReps_append, pickReps_cons]
        apply pickReps_used_sub
        rw [hrep2]
        exact List.mem_cons_self _ _
      intro hmem
      have hmem2 := (consolidate_perm msgs).mem_iff.mp hmem
      rcases List.mem_append.mp hmem2 with hA | hB
      · have hdec := (List.mem_filter.mp hA).2
        rw [decide_eq_true_eq] at hdec
        exact hdec hsid_final
      · obtain ⟨g2, _, hgid, _⟩ :=
          pickReps_mem_spec (fun g2 h2 => membersOf_ne_nil h2) hB
        rw [(mem_standaloneOf.mp hsmem).2] at hgid
        cases hgid
    | none =>
      have hrep : (pickRep msgs (standaloneOf msgs) g
          (pickReps msgs (standaloneOf msgs) gs1 []).2).1 =
          (membersOf msgs g).headI := by
        unfold pickRep
        rw [hf, hs]
      rw [hS, hrep]

/-- Witness for `consolidate_group_survivor`: the spec §8 album scenario
(two captionless album members followed by a standalone text item). -/
theorem consolidate_group_survivor_witness :
    (∃ m ∈ c3wms, m.groupedId = some gidX) ∧
    (∃ gs1 gs2, groupKeys c3wms = gs1 ++ gidX :: gs2 ∧
      ((consolidate c3wms).filter
        (fun m => decide (m.groupedId = some gidX))).length = 1 ∧
      (match (membersOf c3wms gidX).find? hasOwnText with
       | some m0 =>
         (consolidate c3wms).filter (fun m => decide (m.groupedId = some gidX)) = [m0]
       | none =>
         match (standaloneOf c3wms).find?
             (isCaptionCandidate (albumMax (membersOf c3wms gidX))
               (pickReps c3wms (standaloneOf c3wms) gs1 []).2) with
         | some s =>
           (consolidate c3wms).filter (fun m => decide (m.groupedId = some gidX)) =
             [{ (membersOf c3wms gidX).headI with text := s.text }] ∧
           s ∉ consolidate c3wms
         | none =>
           (consolidate c3wms).filter (fun m => decide (m.groupedId = some gidX)) =
             [(membersOf c3wms gidX).headI])) :=
  ⟨by decide, consolidate_group_survivor c3wms gidX (by decide)⟩

/-- The initial load leaves the filtered timeline a subsequence of the
canonical timeline (both are replaced together; on the failure path both
are untouched). -/
theorem loadFeed_sublist (chats : List Chat) (s : Feed)
    (fetch : Str → Option (List Msg))
    (h : List.Sublist s.messageIds s.allMessageIds) :
    List.Sublist (loadFeedMessages chats s fetch).messageIds
      (loadFeedMessages chats s fetch).allMessageIds := by
  unfold loadFeedMessages
  by_cases hf : (eligibleChatIds chats s.excludedChatIds).any
      (fun cid => (fetch cid).isNone) = true
  · simpa [hf] using h
  · simp only [hf, if_false]
    by_cases hex : 0 < s.excludedChatIds.length
    · simp [hex]
    · simp [hex]

/-- Pagination leaves the filtered timeline a subsequence of the
canonical timeline. -/
theorem loadMore_sublist (store : List Msg) (s : Feed)
    (results : List (Str × Option (List Msg)))
    (h : List.Sublist s.messageIds s.allMessageIds) :
    List.Sublist (loadMoreFeedMessages store s results).feed.messageIds
      (loadMoreFeedMessages store s results).feed.allMessageIds := by
  unfold loadMoreFeedMessages
  by_cases hg : (s.isLoadingMore || s.isLoading) = true
  · simpa [hg] using h
  · simp only [hg, if_false]
    cases hm : s.messageIds.head? with
    | none =>
      simpa using h
    | some k =>
      simp only []
      cases hl : lookupMsg store k with
      | none => simpa using h
      | some m =>
        simp only []
        by_cases ha : results.any (fun r => r.2.isNone) = true
        · simpa [ha] using h
        · simp only [ha, if_false]
          by_cases he : (results.flatMap (fun r => r.2.getD [])).isEmpty = true
          · simpa [he] using h
          · simp only [he, if_false]
            by_cases hex : 0 < s.excludedChatIds.length
            · simp [hex]
            · simp [hex]

/-- Applying a preset leaves the filtered timeline a subsequence of the
canonical timeline. -/
theorem applyFilter_sublist (s : Feed) (fid : Str)
    (h : List.Sublist s.messageIds s.allMessageIds) :
    List.Sublist (applyFeedFilter s fid).messageIds
      (applyFeedFilter s fid).allMessageIds := by
  unfold applyFeedFilter
  cases hf : s.savedFilters.find? (fun f => decide (f.id = fid)) with
  | none => exact h
  | some f =>
    by_cases hall : 0 < s.allMessageIds.length
    · by_cases hex : 0 < f.excludedChatIds.length
      · simp [hall, hex]
      · simp [hall, hex]
    · have hA : s.allMessageIds = [] := by
        cases hA : s.allMessageIds with
        | nil => rfl
        | cons a t => rw [hA] at hall; simp at hall
      have hmid : s.messageIds = [] := by
        rw [hA] at h
        exact List.sublist_nil.mp h
      by_cases hex : 0 < f.excludedChatIds.length
      · simp [hall, hex, hA, hmid]
      · simp [hall, hex, hA, hmid]

/-- Saving a preset does not touch the timelines. -/
theorem saveFilter_ids (s : Feed) (name : Str) (now : Nat) :
    (saveFeedFilter s name now).messageIds = s.messageIds ∧
    (saveFeedFilter s name now).allMessageIds = s.allMessageIds := by
  by_cases h0 : (trimStr name).length = 0
  · simp [saveFeedFilter, h0]
  · by_cases hm : MAX_FILTERS ≤ s.savedFilters.length
    · simp [saveFeedFilter, h0, hm]
    · simp [saveFeedFilter, h0, hm]

/-- Renaming a preset does not touch the timelines. -/
theorem renameFilter_ids (s : Feed) (fid nn : Str) :
    (renameFeedFilter s fid nn).messageIds = s.messageIds ∧
    (renameFeedFilter s fid nn).allMessageIds = s.allMessageIds := by
  by_cases h0 : (trimStr nn).length = 0
  · simp [renameFeedFilter, h0]
  · simp [renameFeedFilter, h0]

/-- C6: in every reachable feed state the filtered timeline
(`messageIds`) is an order-preserving subsequence of the canonical
timeline (`allMessageIds`). -/
theorem filtered_is_subsequence (s : Feed) (hs : Reachable s) :
    List.Sublist s.messageIds s.allMessageIds := by
  induction hs with
  | init => exact List.Sublist.refl _
  | load chats fetch hr ih => exact loadFeed_sublist chats _ fetch ih
  | loadMore store results hr ih => exact loadMore_sublist store _ results ih
  | applyF fid hr ih => exact applyFilter_sublist _ fid ih
  | clearF hr ih => exact List.Sublist.refl _
  | toggle cid hr ih => exact ih
  | save name now hr ih =>
    rw [(saveFilter_ids _ name now).1, (saveFilter_ids _ name now).2]
    exact ih
  | deleteF fid hr ih => exact ih
  | renameF fid nn hr ih =>
    rw [(renameFilter_ids _ fid nn).1, (renameFilter_ids _ fid nn).2]
    exact ih
  | updateF fid hr ih => exact ih
  | detach hr ih => exact ih
  | setScroll hr ih => exact ih
  | saveScroll n hr ih => exact ih

/-- Witness for `filtered_is_subsequence`: a concrete reachable state
(open the feed, toggle one exclusion, clear the filter). -/
theorem filtered_is_subsequence_witness :
    List.Sublist
      (clearFeedFilter (toggleFeedChannelExclusion initFeed chB)).messageIds
      (clearFeedFilter (toggleFeedChannelExclusion initFeed chB)).allMessageIds :=
  filtered_is_subsequence _
    (Reachable.clearF (Reachable.toggle chB Reachable.init))
